import Mathlib

/-!
Verification of the scanner-v3 core against its specification.

Paths are modelled as lists of components (no drive/anchor); the string form
of a path is its components joined with a slash, matching `str(Path(...))`
for relative paths.  Python floats (mtime values) enter the model only
through equality comparisons, so they are represented by an `Int`-valued
abstraction.  Glob matching (`fnmatch` component patterns, `PurePath.match`)
is implemented with explicit fuel so that every function is structurally
recursive and kernel-evaluable; the fuel bounds are large enough for every
input by construction (each step consumes at least one character).
-/

namespace ScannerV3

/-- Split a character list on the slash character, as pathlib splits a path
string into components (empty components are filtered out later, matching
the pathlib parser). -/
def splitSlash : List Char → List (List Char)
  | [] => [[]]
  | c :: rest =>
    if c = '/' then [] :: splitSlash rest
    else
      match splitSlash rest with
      | [] => [[c]]
      | g :: gs => (c :: g) :: gs

/-- Glob tokens of an fnmatch component pattern. -/
inductive GlobTok where
  | lit (c : Char)
  | any
  | star
  | cls (neg : Bool) (body : List Char)
deriving DecidableEq

/-- Scan for the closing bracket of an fnmatch character class, accumulating
the class body; `none` when the class is unterminated (the opening bracket
is then a literal, as in `fnmatch.translate`). -/
def spanClose (acc : List Char) : List Char → Option (List Char × List Char)
  | [] => none
  | c :: rest => if c = ']' then some (acc.reverse, rest) else spanClose (c :: acc) rest

/-- Parse an fnmatch character class right after its opening bracket:
leading `!` negates, a closing bracket in first position is a literal
member, as in `fnmatch.translate`. -/
def classSplit (p : List Char) : Option (Bool × List Char × List Char) :=
  match p with
  | '!' :: ']' :: r => (spanClose [']'] r).map fun br => (true, br.1, br.2)
  | '!' :: q => (spanClose [] q).map fun br => (true, br.1, br.2)
  | ']' :: r => (spanClose [']'] r).map fun br => (false, br.1, br.2)
  | q => (spanClose [] q).map fun br => (false, br.1, br.2)

/-- Membership of a character in an fnmatch class body, with `a-z` ranges. -/
def classMatch : List Char → Char → Bool
  | a :: '-' :: b :: rest, c =>
    (decide (a.toNat ≤ c.toNat) && decide (c.toNat ≤ b.toNat)) || classMatch rest c
  | a :: rest, c => (a == c) || classMatch rest c
  | [], _ => false

/-- Fuel-driven tokenizer of an fnmatch component pattern. -/
def tokenizeF : Nat → List Char → List GlobTok
  | 0, _ => []
  | _, [] => []
  | fuel + 1, c :: p =>
    if c = '*' then .star :: tokenizeF fuel p
    else if c = '?' then .any :: tokenizeF fuel p
    else if c = '[' then
      match classSplit p with
      | some (neg, body, rest) => .cls neg body :: tokenizeF fuel rest
      | none => .lit '[' :: tokenizeF fuel p
    else .lit c :: tokenizeF fuel p

/-- Tokenize an fnmatch component pattern. -/
def tokenize (p : List Char) : List GlobTok := tokenizeF (p.length + 1) p

/-- Fuel-driven anchored fnmatch of a token list against a component. -/
def matchToksF : Nat → List GlobTok → List Char → Bool
  | 0, _, _ => false
  | _ + 1, [], s => s.isEmpty
  | fuel + 1, .star :: p, s =>
    matchToksF fuel p s ||
      (match s with
       | [] => false
       | _ :: s' => matchToksF fuel (.star :: p) s')
  | fuel + 1, .any :: p, s =>
    match s with
    | [] => false
    | _ :: s' => matchToksF fuel p s'
  | fuel + 1, .lit c :: p, s =>
    match s with
    | [] => false
    | c' :: s' => (c == c') && matchToksF fuel p s'
  | fuel + 1, .cls neg body :: p, s =>
    match s with
    | [] => false
    | c :: s' => (neg != classMatch body c) && matchToksF fuel p s'

/-- Anchored fnmatch of a token list against a path component, as
`fnmatch` does for each pattern part inside `PurePath.match`. -/
def matchToks (toks : List GlobTok) (s : List Char) : Bool :=
  matchToksF (toks.length + s.length + 1) toks s

/-- One fnmatch component test: tokenize the pattern part, then match. -/
def fnmatchB (pat comp : List Char) : Bool := matchToks (tokenize pat) comp

/-- The parsed components of a glob pattern: split on slashes and drop empty
and single-dot components, as the pathlib path parser does. -/
def patComps (p : String) : List (List Char) :=
  (splitSlash p.data).filter fun c => !c.isEmpty && decide (c ≠ ['.'])

/-- Whether a pattern string is rooted (starts with a slash). -/
def isRooted (p : String) : Bool := p.data.head? == some '/'

/-- Match the last components of a path against the pattern components,
right-to-left, as `PurePath.match` does for relative patterns. -/
def matchFromRight (parts : List String) (pcs : List (List Char)) : Bool :=
  decide (pcs.length ≤ parts.length) &&
    ((parts.reverse.zip pcs.reverse).all fun pr => fnmatchB pr.2 pr.1.data)

/-- Model of `PurePath.match`: `none` models the `ValueError: empty pattern` raised
when the pattern parses to no components (such as `"."` or `"./"`).  A
rooted pattern keeps its root as a pattern part and can never match the
rootless component lists modelling the scanned paths (its root part fails
the componentwise fnmatch, and a length mismatch also fails), hence
`some false`. -/
def pathMatch (parts : List String) (p : String) : Option Bool :=
  if isRooted p then some false
  else if (patComps p).isEmpty then none
  else some (matchFromRight parts (patComps p))

/-- Python `str.strip("*/")`: drop the leading and trailing characters that
are a star or a slash. -/
def pyStrip (s : List Char) : List Char :=
  ((s.dropWhile fun c => c = '*' || c = '/').reverse.dropWhile
    fun c => c = '*' || c = '/').reverse

/-- Whether `needle` starts `hay`. -/
def isPre : List Char → List Char → Bool
  | [], _ => true
  | _ :: _, [] => false
  | c :: n, d :: h => (c == d) && isPre n h

/-- Python substring containment `needle in hay`. -/
def strInStr (needle hay : List Char) : Bool :=
  match hay with
  | [] => needle.isEmpty
  | _ :: h' => isPre needle hay || strInStr needle h'

/-- The string form of a modelled path: components joined with a slash. -/
def joinPath (parts : List String) : String := String.intercalate "/" parts

/-- The body of the per-pattern test in `Scanner._should_exclude`:
`file_path.match(pattern) or Path(relative).match(pattern)` then
`pattern.strip("*/") in str(file_path)`; `none` models the `ValueError`
escaping from `Path.match` into the surrounding `except` block. -/
def checkPattern (full rel : List String) (p : String) : Option Bool :=
  match pathMatch full p with
  | none => none
  | some b1 =>
    match pathMatch rel p with
    | none => none
    | some b2 => some (b1 || b2 || strInStr (pyStrip p.data) (joinPath full).data)

/-- The value of the per-pattern test when it does not raise. -/
def checkB (full rel : List String) (p : String) : Bool :=
  (checkPattern full rel p).getD false

/-- Model of `Scanner._should_exclude`: walk the configured patterns in order,
return `true` on the first match; an exception from `Path.match` aborts the
whole loop and the method returns `false` (the `try` wraps the loop and the
`except` falls through to `return False`). -/
def shouldExclude (patterns : List String) (full rel : List String) : Bool :=
  match patterns with
  | [] => false
  | p :: ps =>
    match checkPattern full rel p with
    | none => false
    | some true => true
    | some false => shouldExclude ps full rel

/-- A pattern on which `Path.match` does not raise: rooted, or parsing to at
least one component. -/
def patternOk (p : String) : Bool := isRooted p || !(patComps p).isEmpty

/-! ## Data model (`src/core/models.py`) and the stat abstraction -/

/-- The two stat fields the scanner and the cache compare; `mtime` is the
float `st_mtime` abstracted to an `Int`, only its equality is ever used. -/
structure Stat where
  mtime : Int
  size : Nat
deriving DecidableEq

/-- Model of `FileInfo`: path, byte size and the extension string stored at
construction time in `Scanner.scan`. -/
structure FileInfo where
  path : List String
  size : Nat
  extension : String
deriving DecidableEq

/-- Model of `ScanResult` as constructed at the end of `Scanner.scan`; `duration` is
the float wall-clock time abstracted to an `Int`, passed through opaquely. -/
structure ScanResult where
  root : List String
  files : List FileInfo
  total_files : Nat
  total_size : Nat
  duration : Int
deriving DecidableEq

/-- The last component of a path (`Path.name`). -/
def lastComp (parts : List String) : String := (parts.getLast?).getD ""

/-- The index of the last dot in a name, `str.rfind(".")` when it hits. -/
def rfindDot (cs : List Char) : Option Nat :=
  ((cs.enum.filter fun pr => pr.2 == '.').getLast?).map Prod.fst

/-- Model of `PurePath.suffix`: the part of the name from its last dot, provided that
dot is neither the first nor the last character of the name. -/
def pySuffix (name : String) : String :=
  match rfindDot name.data with
  | none => ""
  | some i =>
    if 0 < i ∧ i < name.data.length - 1 then ⟨name.data.drop i⟩ else ""

/-- Lower-casing of a string, the normalization the specification claims
for the stored extension. -/
def strLower (s : String) : String := ⟨s.data.map Char.toLower⟩

/-! ## Incremental cache (`src/core/cache.py`)

The in-memory `cache_data` dict is an insertion-ordered association list;
`dictInsert` is Python dict item assignment (overwrite in place, append when
fresh) and `alookup` is dict lookup. -/

/-- One value of the `cache_data` dict, as written by `update_file`. -/
structure CacheEntry where
  mtime : Int
  size : Nat
  hash : String
  scanned : String
deriving DecidableEq

/-- The in-memory cache map. -/
abbrev CacheData := List (String × CacheEntry)

/-- Python dict lookup on an insertion-ordered association list. -/
def alookup {α : Type} : List (String × α) → String → Option α
  | [], _ => none
  | (k', v) :: rest, k => if k' = k then some v else alookup rest k

/-- Python dict item assignment: overwrite the entry in place when the key
exists, append otherwise. -/
def dictInsert {α : Type} : List (String × α) → String → α → List (String × α)
  | [], k, v => [(k, v)]
  | (k', v') :: rest, k, v =>
    if k' = k then (k, v) :: rest else (k', v') :: dictInsert rest k v

/-- Model of `PersistentCache.is_file_changed`: changed when the key is absent, the
live stat fails (the bare `except` returns `True`), or the stored mtime or
size differs from the live one.  The stored hash takes no part in this
comparison. -/
def is_file_changed (stat : String → Option Stat) (data : CacheData) (key : String) : Bool :=
  match alookup data key with
  | none => true
  | some e =>
    match stat key with
    | none => true
    | some st => decide (e.mtime ≠ st.mtime) || decide (e.size ≠ st.size)

/-- Model of `PersistentCache.update_file`: stat the file and overwrite its entry
with mtime, size, content hash and timestamp; a stat failure is swallowed
(`except: pass`) leaving the map untouched.  `hashOf` abstracts
`_calculate_hash` (chunked MD5, empty string on read failure) and `now` the
`datetime.now().isoformat()` value. -/
def update_file (stat : String → Option Stat) (hashOf : String → String) (now : String)
    (data : CacheData) (key : String) : CacheData :=
  match stat key with
  | none => data
  | some st => dictInsert data key ⟨st.mtime, st.size, hashOf key, now⟩

/-- The on-disk cache file: missing, unparseable, or a valid JSON document
holding a cache map (the JSON round trip of the map is faithful: keys are
strings, floats round-trip exactly in Python). -/
inductive DiskState where
  | absent
  | corrupt
  | valid (m : CacheData)
deriving DecidableEq

/-- Model of `PersistentCache._load_cache`: a missing or corrupt store loads as the
empty map. -/
def load_cache : DiskState → CacheData
  | .valid m => m
  | _ => []

/-- The cache directory as `save` sees it: the cache file plus the
temporary file `mkstemp` creates next to it (`none` = no temp file). -/
structure CacheFs where
  cacheFile : DiskState
  temp : Option CacheData
deriving DecidableEq

/-- A failure injected into one of the three steps of `save`, carrying the
exception text. -/
inductive SaveFault where
  | mkstemp (e : String)
  | write (e : String)
  | rename (e : String)
deriving DecidableEq

/-- The exception text a fault re-raises (`raise e` keeps the original). -/
def faultMsg : SaveFault → String
  | .mkstemp e => e
  | .write e => e
  | .rename e => e

/-- Model of `PersistentCache.save`: create a temp file in the cache directory,
write the serialized map to it, rename it over the cache file.  On any
failure the handler unlinks the temp file (which does not exist yet when
`mkstemp` itself failed) and re-raises; the cache file is only touched by
the final rename. -/
def save (st : CacheFs) (data : CacheData) :
    Option SaveFault → Except String Unit × CacheFs
  | some (.mkstemp e) => (.error e, st)
  | some (.write e) => (.error e, { st with temp := none })
  | some (.rename e) => (.error e, { st with temp := none })
  | none => (.ok (), { cacheFile := .valid data, temp := none })

/-- The directory state when the process stops after the temp-file write
but before the rename: the cache file is untouched, the temp file remains. -/
def saveCrashedAfterWrite (st : CacheFs) (data : CacheData) : CacheFs :=
  { st with temp := some data }

/-- Recording a list of paths into a fresh in-memory cache by repeated
`update_file`, as the round-trip property exercises `record`. -/
def recordAll (stat : String → Option Stat) (hashOf : String → String) (now : String)
    (ps : List String) : CacheData :=
  ps.foldl (update_file stat hashOf now) []

/-! ## Scanner (`src/core/scanner.py`) -/

/-- The traversal loop of `Scanner.scan` over the regular files yielded by
`rglob` in traversal order (given as root-relative component lists).  Per
candidate: exclusion check first, then the stat size check (a stat failure
skips the file), then the `FileInfo` is appended with the path suffix as
extension, and the cache entry is refreshed when `is_file_changed`.  `stat`
is keyed by the full path string, as `cache_data` is. -/
def scanGo (patterns : List String) (maxSize : Nat) (root : List String)
    (stat : String → Option Stat) (hashOf : String → String) (now : String) :
    List (List String) → CacheData → List FileInfo × CacheData
  | [], data => ([], data)
  | rel :: rest, data =>
    if shouldExclude patterns (root ++ rel) rel then
      scanGo patterns maxSize root stat hashOf now rest data
    else
      match stat (joinPath (root ++ rel)) with
      | none => scanGo patterns maxSize root stat hashOf now rest data
      | some st =>
        if maxSize < st.size then
          scanGo patterns maxSize root stat hashOf now rest data
        else
          let key := joinPath (root ++ rel)
          let data' :=
            if is_file_changed stat data key then update_file stat hashOf now data key
            else data
          let res := scanGo patterns maxSize root stat hashOf now rest data'
          (⟨root ++ rel, st.size, pySuffix (lastComp (root ++ rel))⟩ :: res.1, res.2)

/-- The files the traversal loop emits: the same control flow as `scanGo`
restricted to the `files` list, which does not depend on the threaded cache
map (`scanGo_fst` below proves the agreement). -/
def scanFiles (patterns : List String) (maxSize : Nat) (root : List String)
    (stat : String → Option Stat) : List (List String) → List FileInfo
  | [] => []
  | rel :: rest =>
    if shouldExclude patterns (root ++ rel) rel then
      scanFiles patterns maxSize root stat rest
    else
      match stat (joinPath (root ++ rel)) with
      | none => scanFiles patterns maxSize root stat rest
      | some st =>
        if maxSize < st.size then
          scanFiles patterns maxSize root stat rest
        else
          ⟨root ++ rel, st.size, pySuffix (lastComp (root ++ rel))⟩ ::
            scanFiles patterns maxSize root stat rest

/-- Model of `Scanner.scan`: load the cache from disk, traverse, then `cache.save()`
— whose failure propagates out of `scan` before the `ScanResult` is built —
and finally assemble the result with `total_files = len(files)` and
`total_size = sum(f.size for f in files)`. -/
def scan (patterns : List String) (maxSize : Nat) (root : List String)
    (stat : String → Option Stat) (hashOf : String → String) (now : String)
    (entries : List (List String)) (disk0 : DiskState) (fault : Option SaveFault)
    (dur : Int) : Except String (ScanResult × CacheFs) :=
  let data0 := load_cache disk0
  let res := scanGo patterns maxSize root stat hashOf now entries data0
  match save ⟨disk0, none⟩ res.2 fault with
  | (.error e, _) => .error e
  | (.ok _, st) =>
    .ok ({ root := root, files := res.1, total_files := res.1.length,
           total_size := (res.1.map FileInfo.size).sum, duration := dur }, st)

/-! ## Orchestration (`src/cli.py`)

An analyzer's `analyze` coroutine is modelled as a function from the
inventory to either its `result.data` payload or the text of the exception
it raises; orchestration runs over a fixed inventory, so each invocation is
deterministic.  The `results["analyzers"]` dict maps each analyzer name to
either the payload or the `{"error": str(e)}` dict. -/

/-- What `results["analyzers"][name]` holds: the payload `result.data`, or
the error dict built from the caught exception text. -/
inductive AEntry (α : Type) where
  | payload (d : α)
  | errorEntry (e : String)
deriving DecidableEq

/-- An analyzer: `analyze(scan_result)` returning a payload or raising. -/
abbrev Analyzer (ι α : Type) := ι → Except String α

/-- Resolution via `container.get_analyzer` as the orchestrator consumes it. -/
abbrev Registry (ι α : Type) := String → Option (Analyzer ι α)

/-- The analyzers map under construction. -/
abbrev Report (α : Type) := List (String × AEntry α)

/-- Model of `run_analyzer_async`: run one analyzer, catching any exception and
returning `(name, data-or-error-dict, error-text-or-none)`; the elapsed
time is dropped as it never reaches the report content. -/
def run_analyzer_async {ι α : Type} (a : Analyzer ι α) (inv : ι) (name : String) :
    String × AEntry α × Option String :=
  match a inv with
  | .ok d => (name, .payload d, none)
  | .error e => (name, .errorEntry e, some e)

/-- Model of `run_analyzers_parallel`: resolve each requested name, skip the absent
ones, gather all tasks; `asyncio.gather` returns results in task order. -/
def run_analyzers_parallel {ι α : Type} (reg : Registry ι α) (names : List String)
    (inv : ι) : List (String × AEntry α × Option String) :=
  names.filterMap fun n => (reg n).map fun a => run_analyzer_async a inv n

/-- The parallel branch of `cli.scan`: gather, then store each task's data
under its name in `results["analyzers"]`. -/
def parallelReport {ι α : Type} (reg : Registry ι α) (names : List String) (inv : ι) :
    Report α :=
  (run_analyzers_parallel reg names inv).foldl (fun r t => dictInsert r t.1 t.2.1) []

/-- The sequential branch of `cli.scan`: resolve each name in request order,
skip absent analyzers, run under a per-analyzer `try` storing the payload or
the error dict. -/
def seqGo {ι α : Type} (reg : Registry ι α) (inv : ι) :
    List String → Report α → Report α
  | [], r => r
  | n :: ns, r =>
    match reg n with
    | none => seqGo reg inv ns r
    | some a =>
      match a inv with
      | .ok d => seqGo reg inv ns (dictInsert r n (.payload d))
      | .error e => seqGo reg inv ns (dictInsert r n (.errorEntry e))

/-- The sequential-mode analyzers map. -/
def sequentialReport {ι α : Type} (reg : Registry ι α) (names : List String) (inv : ι) :
    Report α :=
  seqGo reg inv names []

/-- The entry the orchestration stores for a resolvable name. -/
def entryOf {ι α : Type} (reg : Registry ι α) (inv : ι) (n : String) : AEntry α :=
  match reg n with
  | none => .errorEntry ""
  | some a =>
    match a inv with
    | .ok d => .payload d
    | .error e => .errorEntry e

/-! ## Registry construction (`src/core/container.py`)

Python attribute semantics are explicit: each attribute the methods touch is
an `Option` field, `none` meaning the attribute was never assigned, and
reading an unassigned attribute raises `AttributeError` (modelled as an
`Except.error`).  `Container.__init__` assigns, in order: `settings`,
`_scanner`, `logger`, `_analyzers` (twice, each via `_discover_analyzers`),
and finally `_failed_analyzers = {}`; no statement assigns `_instances`. -/

/-- An analyzer class as `get_analyzer` calls it: instantiating either
yields an instance (abstracted to a `Nat` identity) or raises with a text. -/
abbrev AnalyzerClass := Except String Nat

/-- The result of importing one module of `src.analyzers`: an import (or
processing) failure with its error text, or the discovered analyzer classes
of the module as `(registered name, class)` pairs. -/
inductive ModuleInfo where
  | importFail (modname : String) (err : String)
  | loaded (modname : String) (classes : List (String × AnalyzerClass))

/-- The attributes of the `Container` object that `_discover_analyzers` and
`get_analyzer` touch; `none` = never assigned. -/
structure ContainerAttrs where
  analyzers : Option (List (String × AnalyzerClass))
  failed : Option (List (String × String))
  instances : Option (List (String × Nat))

/-- The `AttributeError` raised on reading an attribute never assigned. -/
def attrErr (a : String) : String := "AttributeError: " ++ a

/-- Model of `Container._discover_analyzers`: walk the modules, register discovered
classes last-wins; an import or processing failure stores the error text
into `self._failed_analyzers` — an attribute read that raises when the
attribute is unassigned — and the final `if self._failed_analyzers:` log
check reads the same attribute unconditionally. -/
def discoverGo (attrs : ContainerAttrs) (acc : List (String × AnalyzerClass)) :
    List ModuleInfo → Except String (List (String × AnalyzerClass) × ContainerAttrs)
  | [] =>
    match attrs.failed with
    | none => .error (attrErr "_failed_analyzers")
    | some _ => .ok (acc, attrs)
  | .loaded _ classes :: rest =>
    discoverGo attrs (classes.foldl (fun m kv => dictInsert m kv.1 kv.2) acc) rest
  | .importFail modname err :: rest =>
    match attrs.failed with
    | none => .error (attrErr "_failed_analyzers")
    | some f =>
      discoverGo { attrs with failed := some (dictInsert f modname err) } acc rest

/-- Model of `Container.__init__` after the settings/scanner/logger assignments:
`self._analyzers = self._discover_analyzers()` twice, then
`self._failed_analyzers = {}`; any exception escaping a statement aborts
construction. -/
def containerInit (mods : List ModuleInfo) : Except String ContainerAttrs := do
  let attrs0 : ContainerAttrs := ⟨none, none, none⟩
  let d1 ← discoverGo attrs0 [] mods
  let d2 ← discoverGo { d1.2 with analyzers := some d1.1 } [] mods
  .ok { d2.2 with analyzers := some d2.1, failed := some [] }

/-- Model of `Container.get_analyzer`: `if name in self._instances` reads the
`_instances` attribute first; then a memoized instance is returned, or the
class is instantiated and memoized, a construction failure being recorded
in `_failed_analyzers` with `None` returned, and an unknown name returning
`None`. -/
def get_analyzer (attrs : ContainerAttrs) (name : String) :
    Except String (Option Nat × ContainerAttrs) :=
  match attrs.instances with
  | none => .error (attrErr "_instances")
  | some insts =>
    match alookup insts name with
    | some inst => .ok (some inst, attrs)
    | none =>
      match attrs.analyzers with
      | none => .error (attrErr "_analyzers")
      | some ans =>
        match alookup ans name with
        | none => .ok (none, attrs)
        | some (.ok inst) =>
          .ok (some inst, { attrs with instances := some (dictInsert insts name inst) })
        | some (.error e) =>
          match attrs.failed with
          | none => .error (attrErr "_failed_analyzers")
          | some f => .ok (none, { attrs with failed := some (dictInsert f name e) })

/-! ## Lemmas about the dict model -/

theorem alookup_dictInsert_self {α : Type} (m : List (String × α)) (k : String) (v : α) :
    alookup (dictInsert m k v) k = some v := by
  induction m with
  | nil => simp [dictInsert, alookup]
  | cons kv rest ih =>
    obtain ⟨k', v'⟩ := kv
    by_cases h : k' = k
    · simp [dictInsert, h, alookup]
    · simp [dictInsert, h, alookup, ih]

theorem alookup_dictInsert_ne {α : Type} (m : List (String × α)) (k k2 : String) (v : α)
    (hne : k2 ≠ k) : alookup (dictInsert m k v) k2 = alookup m k2 := by
  induction m with
  | nil => simp [dictInsert, alookup, Ne.symm hne]
  | cons kv rest ih =>
    obtain ⟨k', v'⟩ := kv
    by_cases h : k' = k
    · subst h
      simp only [dictInsert, if_pos rfl, alookup]
      rw [if_neg (Ne.symm hne), if_neg (Ne.symm hne)]
    · simp only [dictInsert, if_neg h, alookup]
      by_cases h2 : k' = k2
      · simp [h2]
      · simp [h2, ih]

theorem dictInsert_fresh {α : Type} (m : List (String × α)) (k : String) (v : α)
    (h : k ∉ m.map Prod.fst) : dictInsert m k v = m ++ [(k, v)] := by
  induction m with
  | nil => simp [dictInsert]
  | cons kv rest ih =>
    obtain ⟨k', v'⟩ := kv
    simp only [List.map_cons, List.mem_cons] at h
    push_neg at h
    simp [dictInsert, Ne.symm h.1, ih h.2]

/-! ## Lemmas about the traversal -/

theorem scanGo_fst (patterns : List String) (maxSize : Nat) (root : List String)
    (stat : String → Option Stat) (hashOf : String → String) (now : String)
    (entries : List (List String)) :
    ∀ data : CacheData,
      (scanGo patterns maxSize root stat hashOf now entries data).1 =
        scanFiles patterns maxSize root stat entries := by
  induction entries with
  | nil => intro data; rfl
  | cons rel rest ih =>
    intro data
    simp only [scanGo, scanFiles]
    by_cases h1 : shouldExclude patterns (root ++ rel) rel
    · simp [h1, ih]
    · simp only [h1, if_false, Bool.false_eq_true]
      cases hstat : stat (joinPath (root ++ rel)) with
      | none => simp [ih]
      | some st =>
        by_cases h2 : maxSize < st.size
        · simp [h2, ih]
        · simp [h2, ih]

theorem scanFiles_mem (patterns : List String) (maxSize : Nat) (root : List String)
    (stat : String → Option Stat) :
    ∀ (entries : List (List String)) (fi : FileInfo),
      fi ∈ scanFiles patterns maxSize root stat entries →
      ∃ rel, rel ∈ entries ∧ fi.path = root ++ rel ∧
        shouldExclude patterns (root ++ rel) rel = false ∧
        fi.extension = pySuffix (lastComp (root ++ rel)) := by
  intro entries
  induction entries with
  | nil => intro fi h; simp [scanFiles] at h
  | cons rel rest ih =>
    intro fi h
    simp only [scanFiles] at h
    by_cases h1 : shouldExclude patterns (root ++ rel) rel
    · rw [if_pos h1] at h
      obtain ⟨r2, hr2, hrest⟩ := ih fi h
      exact ⟨r2, List.mem_cons_of_mem _ hr2, hrest⟩
    · rw [if_neg h1] at h
      cases hstat : stat (joinPath (root ++ rel)) with
      | none =>
        simp only [hstat] at h
        obtain ⟨r2, hr2, hrest⟩ := ih fi h
        exact ⟨r2, List.mem_cons_of_mem _ hr2, hrest⟩
      | some st =>
        simp only [hstat] at h
        by_cases h2 : maxSize < st.size
        · rw [if_pos h2] at h
          obtain ⟨r2, hr2, hrest⟩ := ih fi h
          exact ⟨r2, List.mem_cons_of_mem _ hr2, hrest⟩
        · rw [if_neg h2] at h
          rcases List.mem_cons.mp h with hfi | hfi
          · subst hfi
            exact ⟨rel, List.mem_cons_self _ _, rfl,
              Bool.eq_false_iff.mpr h1, rfl⟩
          · obtain ⟨r2, hr2, hrest⟩ := ih fi hfi
            exact ⟨r2, List.mem_cons_of_mem _ hr2, hrest⟩

/-! ## Claim C5: atomic flush -/

/-- Claim C5: `save` writes the serialized map to a temp file in the cache
directory and renames it over the cache file; a crash between the temp
write and the rename leaves the previously persisted file intact and
parseable, any failure of `save` removes the temp file, leaves the original
store untouched, and propagates the exception to the caller. -/
theorem save_atomic (st : CacheFs) (data m : CacheData)
    (hm : st.cacheFile = .valid m) (ht : st.temp = none) :
    ((saveCrashedAfterWrite st data).cacheFile = .valid m ∧
      load_cache (saveCrashedAfterWrite st data).cacheFile = m) ∧
    ∀ f : SaveFault,
      (save st data (some f)).1 = .error (faultMsg f) ∧
      (save st data (some f)).2.cacheFile = .valid m ∧
      (save st data (some f)).2.temp = none := by
  refine ⟨⟨?_, ?_⟩, ?_⟩
  · simpa [saveCrashedAfterWrite] using hm
  · simp [saveCrashedAfterWrite, hm, load_cache]
  · intro f
    cases f <;> simp [save, faultMsg, hm, ht]

/-- Witness for `save_atomic` at a concrete store and a rename-step
failure. -/
theorem save_atomic_w :
    (save ⟨.valid [], none⟩ [("k", ⟨0, 1, "h", "t"⟩)] (some (.rename "disk full"))).1 =
      .error "disk full" ∧
    (save ⟨.valid [], none⟩ [("k", ⟨0, 1, "h", "t"⟩)] (some (.rename "disk full"))).2.cacheFile =
      .valid [] ∧
    (save ⟨.valid [], none⟩ [("k", ⟨0, 1, "h", "t"⟩)] (some (.rename "disk full"))).2.temp =
      none :=
  (save_atomic ⟨.valid [], none⟩ [("k", ⟨0, 1, "h", "t"⟩)] [] rfl rfl).2
    (.rename "disk full")

/-! ## Claim C6: lazy memoized instantiation -/

/-- Claim C6 (code bug): `get_analyzer` begins with
`if name in self._instances`, but no statement of `Container.__init__` ever
assigns `self._instances`; with the attribute set `__init__` produces
(`_analyzers` and `_failed_analyzers` assigned, `_instances` not), every
call to `get_analyzer` raises `AttributeError` instead of constructing and
memoizing the instance. -/
theorem get_analyzer_attribute_error (ans : List (String × AnalyzerClass))
    (f : List (String × String)) (name : String) :
    get_analyzer ⟨some ans, some f, none⟩ name = .error (attrErr "_instances") := rfl

/-! ## Claim C7: failure isolation during discovery -/

theorem discoverGo_no_failed_attr (acc : List (String × AnalyzerClass))
    (attrs : ContainerAttrs) (hf : attrs.failed = none) :
    ∀ mods : List ModuleInfo,
      discoverGo attrs acc mods = .error (attrErr "_failed_analyzers") := by
  intro mods
  induction mods generalizing acc with
  | nil => simp [discoverGo, hf]
  | cons mo rest ih =>
    cases mo with
    | importFail modname err => simp [discoverGo, hf]
    | loaded modname classes => simp [discoverGo, ih]

/-- Claim C7 (code bug): `_discover_analyzers` reads
`self._failed_analyzers` (to record a module failure, and unconditionally in
its final logging check) but `__init__` only assigns that attribute after
discovery returns, so registry construction always raises `AttributeError`
— a broken plugin aborts construction instead of being recorded, and even
an all-good module list aborts. -/
theorem containerInit_attribute_error (mods : List ModuleInfo) :
    containerInit mods = .error (attrErr "_failed_analyzers") := by
  unfold containerInit
  simp only []
  rw [discoverGo_no_failed_attr [] ⟨none, none, none⟩ rfl mods]
  rfl

/-! ## Claim C8: flush failure at the end of a scan -/

/-- Claim C8 counterexample: with a single ordinary file and a rename-step
flush failure, `scan` evaluates to the propagated error — it is a hard
error, but the caller does not obtain any `ScanResult`, contradicting the
claim that the Inventory still reaches the caller. -/
theorem scan_flush_failure_cex :
    scan [] 100 ["proj"] (fun s => if s = "proj/a.py" then some ⟨0, 5⟩ else none)
        (fun _ => "h") "t" [["a.py"]] .absent (some (.rename "No space left on device")) 0 =
      .error "No space left on device" := by rfl

/-- Claim C8 as amended: a failing cache flush at the end of `scan` is
surfaced to the caller as a hard error carrying the flush exception text,
and the caller does not obtain the Inventory — `scan` raises before the
`ScanResult` is constructed, discarding the completed traversal's results. -/
theorem scan_flush_failure_amended (patterns : List String) (maxSize : Nat)
    (root : List String) (stat : String → Option Stat) (hashOf : String → String)
    (now : String) (entries : List (List String)) (disk0 : DiskState) (f : SaveFault)
    (dur : Int) :
    scan patterns maxSize root stat hashOf now entries disk0 (some f) dur =
      .error (faultMsg f) := by
  unfold scan
  cases f <;> simp [save, faultMsg]

/-! ## Claim C9: stored extension -/

/-- Claim C9 counterexample: a file named `A.PY` is emitted with extension
`.PY`, while the lower-casing of the path's suffix is `.py` — the scanner
stores `file_path.suffix` verbatim, without lower-casing. -/
theorem extension_not_lowercased_cex :
    (scanFiles [] 100 ["proj"] (fun s => if s = "proj/A.PY" then some ⟨0, 4⟩ else none)
        [["A.PY"]]).map FileInfo.extension = [".PY"] ∧
    strLower (pySuffix (lastComp ["proj", "A.PY"])) = ".py" ∧
    (".PY" : String) ≠ ".py" := by decide

/-- Claim C9 as amended: every `FileInfo` emitted into the Inventory by a
completed scan stores the file path's suffix verbatim as its extension
(not lower-cased). -/
theorem extension_is_suffix (patterns : List String) (maxSize : Nat)
    (root : List String) (stat : String → Option Stat) (hashOf : String → String)
    (now : String) (entries : List (List String)) (disk0 : DiskState)
    (fault : Option SaveFault) (dur : Int) (r : ScanResult) (st' : CacheFs)
    (h : scan patterns maxSize root stat hashOf now entries disk0 fault dur = .ok (r, st')) :
    ∀ fi ∈ r.files, fi.extension = pySuffix (lastComp fi.path) := by
  intro fi hfi
  have hfiles : r.files = scanFiles patterns maxSize root stat entries := by
    unfold scan at h
    cases fault with
    | none =>
      simp only [save] at h
      cases h
      exact scanGo_fst patterns maxSize root stat hashOf now entries _
    | some f => cases f <;> simp [save] at h
  rw [hfiles] at hfi
  obtain ⟨rel, _, hpath, _, hext⟩ := scanFiles_mem patterns maxSize root stat entries fi hfi
  rw [hext, hpath]

/-- Witness for `extension_is_suffix` at a concrete completed scan. -/
theorem extension_is_suffix_w :
    FileInfo.extension ⟨["proj", "A.PY"], 4, ".PY"⟩ =
      pySuffix (lastComp (FileInfo.path ⟨["proj", "A.PY"], 4, ".PY"⟩)) :=
  extension_is_suffix [] 100 ["proj"]
    (fun s => if s = "proj/A.PY" then some ⟨0, 4⟩ else none) (fun _ => "h") "t"
    [["A.PY"]] .absent none 0 _ _ rfl ⟨["proj", "A.PY"], 4, ".PY"⟩ (by decide)

/-! ## Claim C10: ScanResult count and size invariant -/

/-- Claim C10: every `ScanResult` a completed `scan` returns has
`total_files` equal to the length of its `files` sequence and `total_size`
equal to the sum of the sizes of its descriptors. -/
theorem scan_result_invariant (patterns : List String) (maxSize : Nat)
    (root : List String) (stat : String → Option Stat) (hashOf : String → String)
    (now : String) (entries : List (List String)) (disk0 : DiskState)
    (fault : Option SaveFault) (dur : Int) (r : ScanResult) (st' : CacheFs)
    (h : scan patterns maxSize root stat hashOf now entries disk0 fault dur = .ok (r, st')) :
    r.total_files = r.files.length ∧ r.total_size = (r.files.map FileInfo.size).sum := by
  unfold scan at h
  cases fault with
  | none =>
    simp only [save] at h
    cases h
    exact ⟨rfl, rfl⟩
  | some f => cases f <;> simp [save] at h

/-- Witness for `scan_result_invariant` at a concrete completed scan. -/
theorem scan_result_invariant_w :
    (ScanResult.mk ["proj"] [⟨["proj", "a.py"], 5, ".py"⟩] 1 5 0).total_files =
      (ScanResult.mk ["proj"] [⟨["proj", "a.py"], 5, ".py"⟩] 1 5 0).files.length ∧
    (ScanResult.mk ["proj"] [⟨["proj", "a.py"], 5, ".py"⟩] 1 5 0).total_size =
      ((ScanResult.mk ["proj"] [⟨["proj", "a.py"], 5, ".py"⟩] 1 5 0).files.map
        FileInfo.size).sum :=
  scan_result_invariant [] 100 ["proj"]
    (fun s => if s = "proj/a.py" then some ⟨0, 5⟩ else none) (fun _ => "h") "t"
    [["a.py"]] .absent none 0 _ _ rfl

/-! ## Claims C2 and C3: orchestration -/

theorem par_eq_seq {ι α : Type} (reg : Registry ι α) (inv : ι) :
    ∀ (names : List String) (r0 : Report α),
      (run_analyzers_parallel reg names inv).foldl (fun r t => dictInsert r t.1 t.2.1) r0 =
        seqGo reg inv names r0 := by
  intro names
  induction names with
  | nil => intro r0; rfl
  | cons n ns ih =>
    intro r0
    simp only [run_analyzers_parallel, List.filterMap_cons] at *
    cases hr : reg n with
    | none => simp only [seqGo, hr, Option.map_none']; exact ih r0
    | some a =>
      cases ha : a inv with
      | ok d =>
        simp only [seqGo, hr, Option.map_some', run_analyzer_async, ha, List.foldl_cons]
        exact ih _
      | error e =>
        simp only [seqGo, hr, Option.map_some', run_analyzer_async, ha, List.foldl_cons]
        exact ih _

theorem seqGo_keys {ι α : Type} (reg : Registry ι α) (inv : ι) :
    ∀ (names : List String) (r0 : Report α),
      names.Nodup → (∀ n ∈ names, n ∉ r0.map Prod.fst) →
      (seqGo reg inv names r0).map Prod.fst =
        r0.map Prod.fst ++ names.filter fun n => (reg n).isSome := by
  intro names
  induction names with
  | nil => intro r0 _ _; simp [seqGo]
  | cons n ns ih =>
    intro r0 hnd hfresh
    have hfresh' : ∀ e : AEntry α, ∀ m ∈ ns, m ∉ (dictInsert r0 n e).map Prod.fst := by
      intro e m hm
      rw [dictInsert_fresh r0 n e (hfresh n (List.mem_cons_self _ _))]
      simp only [List.map_append, List.mem_append, List.map_cons, List.map_nil,
        List.mem_singleton]
      push_neg
      refine ⟨hfresh m (List.mem_cons_of_mem _ hm), ?_⟩
      intro he
      subst he
      exact (List.nodup_cons.mp hnd).1 hm
    cases hr : reg n with
    | none =>
      simp only [seqGo, hr, List.filter_cons, Option.isSome_none, Bool.false_eq_true,
        if_false]
      exact ih r0 (List.Nodup.of_cons hnd) fun m hm => hfresh m (List.mem_cons_of_mem _ hm)
    | some a =>
      have hkeys : ∀ e : AEntry α,
          (seqGo reg inv ns (dictInsert r0 n e)).map Prod.fst =
            r0.map Prod.fst ++ n :: ns.filter fun m => (reg m).isSome := by
        intro e
        rw [ih (dictInsert r0 n e) (List.Nodup.of_cons hnd) (hfresh' e),
          dictInsert_fresh r0 n e (hfresh n (List.mem_cons_self _ _))]
        simp
      cases ha : a inv with
      | ok d => simp only [seqGo, hr, ha, List.filter_cons, Option.isSome_some, if_true]
                exact hkeys _
      | error e => simp only [seqGo, hr, ha, List.filter_cons, Option.isSome_some, if_true]
                   exact hkeys _

/-- Claim C2: for a fixed Inventory and a fixed requested-name list, the
parallel branch of `cli.scan` and the sequential branch build the same
`results["analyzers"]` map — same keys in the same positions and the same
payload-or-error value under each key; only timing differs (timing never
enters the map).  Moreover (for duplicate-free requests, dict insertion
collapsing repeated keys) the keys of that shared map are exactly the
requested names that resolve, in the requested order. -/
theorem parallel_eq_sequential {ι α : Type} (reg : Registry ι α) (names : List String)
    (inv : ι) :
    parallelReport reg names inv = sequentialReport reg names inv ∧
    (names.Nodup →
      (parallelReport reg names inv).map Prod.fst =
        names.filter fun n => (reg n).isSome) := by
  have hpar : parallelReport reg names inv = sequentialReport reg names inv :=
    par_eq_seq reg inv names []
  refine ⟨hpar, fun hnd => ?_⟩
  rw [hpar]
  have h := seqGo_keys reg inv names [] hnd (by simp)
  simpa [sequentialReport] using h

/-- A concrete registry for the `parallel_eq_sequential` witness: `alpha`
resolves and succeeds, `delta` does not resolve, `gamma` resolves and
raises. -/
def regW2 : Registry Nat Nat := fun n =>
  if n = "alpha" then some fun _ => .ok 1
  else if n = "gamma" then some fun _ => .error "gamma failed"
  else none

/-- Witness for `parallel_eq_sequential` on `regW2`: the two modes build
the same map over the request `[alpha, delta, gamma]`, and its keys are the
resolvable names in request order. -/
theorem parallel_eq_sequential_w :
    parallelReport regW2 ["alpha", "delta", "gamma"] 0 =
      sequentialReport regW2 ["alpha", "delta", "gamma"] 0 ∧
    (parallelReport regW2 ["alpha", "delta", "gamma"] 0).map Prod.fst =
      ["alpha", "gamma"] :=
  ⟨(parallel_eq_sequential regW2 ["alpha", "delta", "gamma"] 0).1,
   (parallel_eq_sequential regW2 ["alpha", "delta", "gamma"] 0).2 (by decide)⟩

theorem seqGo_resolved {ι α : Type} (reg : Registry ι α) (inv : ι) :
    ∀ (names : List String) (r0 : Report α),
      (∀ n ∈ names, (reg n).isSome) →
      seqGo reg inv names r0 =
        names.foldl (fun r n => dictInsert r n (entryOf reg inv n)) r0 := by
  intro names
  induction names with
  | nil => intro r0 _; rfl
  | cons n ns ih =>
    intro r0 hres
    have hn := hres n (List.mem_cons_self _ _)
    cases hr : reg n with
    | none => rw [hr] at hn; cases hn
    | some a =>
      cases ha : a inv with
      | ok d =>
        simp only [seqGo, hr, ha, List.foldl_cons, entryOf]
        exact ih _ fun m hm => hres m (List.mem_cons_of_mem _ hm)
      | error e =>
        simp only [seqGo, hr, ha, List.foldl_cons, entryOf]
        exact ih _ fun m hm => hres m (List.mem_cons_of_mem _ hm)

theorem foldl_dictInsert_map {β : Type} (g : String → β) :
    ∀ (names : List String) (r0 : List (String × β)),
      names.Nodup → (∀ n ∈ names, n ∉ r0.map Prod.fst) →
      names.foldl (fun r n => dictInsert r n (g n)) r0 =
        r0 ++ names.map fun n => (n, g n) := by
  intro names
  induction names with
  | nil => intro r0 _ _; simp
  | cons n ns ih =>
    intro r0 hnd hfresh
    simp only [List.foldl_cons]
    rw [dictInsert_fresh r0 n (g n) (hfresh n (List.mem_cons_self _ _))]
    rw [ih (r0 ++ [(n, g n)]) (List.Nodup.of_cons hnd) ?_]
    · simp
    · intro m hm
      simp only [List.map_append, List.mem_append, List.map_cons]
      push_neg
      refine ⟨hfresh m (List.mem_cons_of_mem _ hm), ?_⟩
      have hne : m ≠ n := by
        intro he
        subst he
        exact (List.nodup_cons.mp hnd).1 hm
      simp [hne]

theorem alookup_map_of_mem {β : Type} (g : String → β) :
    ∀ (names : List String) (b : String), b ∈ names →
      alookup (names.map fun n => (n, g n)) b = some (g b) := by
  intro names
  induction names with
  | nil => intro b hb; cases hb
  | cons n ns ih =>
    intro b hb
    simp only [List.map_cons, alookup]
    by_cases h : n = b
    · subst h; simp
    · rw [if_neg h]
      exact ih b (by rcases List.mem_cons.mp hb with h' | h'; exact absurd h'.symm h; exact h')

/-- Claim C3: when every requested name resolves and exactly one resolved
analyzer raises while the others return payloads, the orchestration (which
never itself raises — both branches are total by construction, each
invocation being individually wrapped) produces a map with exactly one
entry per requested name: the raiser's entry carries its error text, every
other entry carries a payload, and the parallel mode yields the identical
map, so no sibling is cancelled or affected. -/
theorem failure_isolation {ι α : Type} (reg : Registry ι α) (inv : ι)
    (names : List String) (b : String) (ab : Analyzer ι α) (e : String)
    (hnd : names.Nodup) (hb : b ∈ names) (hab : reg b = some ab)
    (habe : ab inv = .error e)
    (hok : ∀ n ∈ names, n ≠ b → ∃ a d, reg n = some a ∧ a inv = .ok d) :
    (sequentialReport reg names inv).length = names.length ∧
    alookup (sequentialReport reg names inv) b = some (.errorEntry e) ∧
    (∀ n ∈ names, n ≠ b →
      ∃ d, alookup (sequentialReport reg names inv) n = some (.payload d)) ∧
    parallelReport reg names inv = sequentialReport reg names inv := by
  have hres : ∀ n ∈ names, (reg n).isSome := by
    intro n hn
    by_cases hnb : n = b
    · subst hnb; rw [hab]; rfl
    · obtain ⟨a, d, ha, _⟩ := hok n hn hnb
      rw [ha]; rfl
  have hmap : sequentialReport reg names inv =
      names.map fun n => (n, entryOf reg inv n) := by
    unfold sequentialReport
    rw [seqGo_resolved reg inv names [] hres,
        foldl_dictInsert_map (entryOf reg inv) names [] hnd (by simp)]
    simp
  refine ⟨?_, ?_, ?_, par_eq_seq reg inv names []⟩
  · rw [hmap]; simp
  · rw [hmap, alookup_map_of_mem _ names b hb]
    simp [entryOf, hab, habe]
  · intro n hn hnb
    obtain ⟨a, d, ha, had⟩ := hok n hn hnb
    refine ⟨d, ?_⟩
    rw [hmap, alookup_map_of_mem _ names n hn]
    simp [entryOf, ha, had]

/-- A concrete three-analyzer registry whose middle analyzer always raises. -/
def regW : Registry Nat Nat := fun n =>
  if n = "alpha" then some fun _ => .ok 1
  else if n = "beta" then some fun _ => .error "boom"
  else if n = "gamma" then some fun _ => .ok 3
  else none

/-- Witness for `failure_isolation` on the concrete registry `regW`. -/
theorem failure_isolation_w :
    (sequentialReport regW ["alpha", "beta", "gamma"] 0).length = 3 ∧
    alookup (sequentialReport regW ["alpha", "beta", "gamma"] 0) "beta" =
      some (.errorEntry "boom") := by
  have h := failure_isolation regW 0 ["alpha", "beta", "gamma"] "beta"
    (fun _ => .error "boom") "boom" (by decide) (by decide) rfl rfl ?_
  · exact ⟨h.1, h.2.1⟩
  · intro n hn hnb
    have hn' : n = "alpha" ∨ n = "beta" ∨ n = "gamma" := by simpa using hn
    rcases hn' with h' | h' | h'
    · subst h'; exact ⟨_, 1, rfl, rfl⟩
    · exact absurd h' hnb
    · subst h'; exact ⟨_, 3, rfl, rfl⟩

/-! ## Claim C4: cache round trip -/

theorem update_file_alookup_ne (stat : String → Option Stat) (hashOf : String → String)
    (now : String) (data : CacheData) (k k2 : String) (h : k2 ≠ k) :
    alookup (update_file stat hashOf now data k) k2 = alookup data k2 := by
  unfold update_file
  cases stat k with
  | none => rfl
  | some st => exact alookup_dictInsert_ne data k k2 _ h

theorem recordAll_alookup (stat : String → Option Stat) (hashOf : String → String)
    (now : String) :
    ∀ (ps : List String) (init : CacheData) (p : String) (st : Stat),
      stat p = some st →
      (p ∈ ps ∨ alookup init p = some ⟨st.mtime, st.size, hashOf p, now⟩) →
      alookup (ps.foldl (update_file stat hashOf now) init) p =
        some ⟨st.mtime, st.size, hashOf p, now⟩ := by
  intro ps
  induction ps with
  | nil =>
    intro init p st hst hmem
    rcases hmem with h | h
    · cases h
    · simpa using h
  | cons q qs ih =>
    intro init p st hst hmem
    simp only [List.foldl_cons]
    apply ih _ p st hst
    by_cases hpq : p = q
    · right
      subst hpq
      unfold update_file
      rw [hst]
      exact alookup_dictInsert_self init p _
    · rcases hmem with h | h
      · rcases List.mem_cons.mp h with h' | h'
        · exact absurd h' hpq
        · left; exact h'
      · right
        rw [update_file_alookup_ne stat hashOf now init q p hpq]
        exact h

/-- Claim C4: record N paths into a fresh cache, flush, construct a fresh
cache over the same backing file; then `changed(p)` is false for every
recorded path whose live mtime and size still equal the recorded ones
(`stat2 p = some st`), and true for any recorded path whose live mtime or
size has changed.  `stat1` is the filesystem at record time, `stat2` at
check time. -/
theorem cache_round_trip (stat1 stat2 : String → Option Stat) (hashOf : String → String)
    (now : String) (ps : List String) (disk0 : DiskState) (p : String) (st : Stat)
    (hp : p ∈ ps) (hst : stat1 p = some st) :
    (save ⟨disk0, none⟩ (recordAll stat1 hashOf now ps) none).1 = .ok () ∧
    (stat2 p = some st →
      is_file_changed stat2
        (load_cache (save ⟨disk0, none⟩ (recordAll stat1 hashOf now ps) none).2.cacheFile)
        p = false) ∧
    ∀ st2, stat2 p = some st2 → st2.mtime ≠ st.mtime ∨ st2.size ≠ st.size →
      is_file_changed stat2
        (load_cache (save ⟨disk0, none⟩ (recordAll stat1 hashOf now ps) none).2.cacheFile)
        p = true := by
  have hload : load_cache (save ⟨disk0, none⟩ (recordAll stat1 hashOf now ps) none).2.cacheFile =
      recordAll stat1 hashOf now ps := rfl
  have hlook : alookup (recordAll stat1 hashOf now ps) p =
      some ⟨st.mtime, st.size, hashOf p, now⟩ :=
    recordAll_alookup stat1 hashOf now ps [] p st hst (Or.inl hp)
  refine ⟨rfl, ?_, ?_⟩
  · intro h2
    rw [hload]
    unfold is_file_changed
    rw [hlook, h2]
    simp
  · intro st2 h2 hne
    rw [hload]
    unfold is_file_changed
    rw [hlook, h2]
    rcases hne with hne | hne <;> simp [Ne.symm hne]

/-- The record-time filesystem of the `cache_round_trip` witness. -/
def statW : String → Option Stat := fun s =>
  if s = "f1" then some ⟨1, 10⟩ else if s = "f2" then some ⟨2, 20⟩ else none

/-- The check-time filesystem of the `cache_round_trip` witness after `f1`
was touched (its mtime moved from 1 to 9). -/
def statWTouched : String → Option Stat := fun s =>
  if s = "f1" then some ⟨9, 10⟩ else statW s

/-- Witness for `cache_round_trip`: two recorded files, `f1` first checked
against an untouched filesystem (unchanged) and then against one where its
mtime moved (changed). -/
theorem cache_round_trip_w :
    is_file_changed statW
      (load_cache (save ⟨.absent, none⟩ (recordAll statW (fun _ => "h") "t" ["f1", "f2"])
        none).2.cacheFile) "f1" = false ∧
    is_file_changed statWTouched
      (load_cache (save ⟨.absent, none⟩ (recordAll statW (fun _ => "h") "t" ["f1", "f2"])
        none).2.cacheFile) "f1" = true := by
  constructor
  · exact (cache_round_trip statW statW (fun _ => "h") "t" ["f1", "f2"] .absent "f1"
      ⟨1, 10⟩ (by decide) rfl).2.1 rfl
  · exact (cache_round_trip statW statWTouched (fun _ => "h") "t" ["f1", "f2"] .absent "f1"
      ⟨1, 10⟩ (by decide) rfl).2.2 ⟨9, 10⟩ rfl (Or.inl (by decide))

/-! ## Claim C1: exclusion -/

theorem checkPattern_ok (p : String) (hok : patternOk p = true) (full rel : List String) :
    checkPattern full rel p = some (checkB full rel p) := by
  unfold patternOk at hok
  by_cases hr : isRooted p = true
  · simp [checkPattern, pathMatch, hr, checkB]
  · have hc : (patComps p).isEmpty = false := by
      rw [Bool.or_eq_true] at hok
      rcases hok with h | h
      · exact absurd h hr
      · exact Bool.not_eq_true' .. |>.mp h
    simp [checkPattern, pathMatch, hr, hc, checkB]

theorem shouldExclude_eq_any (full rel : List String) :
    ∀ patterns : List String, (∀ p ∈ patterns, patternOk p = true) →
      shouldExclude patterns full rel = patterns.any fun p => checkB full rel p := by
  intro patterns
  induction patterns with
  | nil => intro _; rfl
  | cons p ps ih =>
    intro h
    simp only [shouldExclude, checkPattern_ok p (h p (List.mem_cons_self _ _)) full rel]
    cases hcb : checkB full rel p
    · simp only [List.any_cons, hcb, Bool.false_or]
      exact ih fun q hq => h q (List.mem_cons_of_mem _ hq)
    · simp [List.any_cons, hcb]

theorem perm_any (f : String → Bool) {l1 l2 : List String} (h : l1.Perm l2) :
    l1.any f = l2.any f := by
  cases h1 : l1.any f <;> cases h2 : l2.any f <;> try rfl
  · rw [List.any_eq_true] at h2
    obtain ⟨x, hx, hfx⟩ := h2
    have h3 := List.any_eq_true.mpr ⟨x, h.mem_iff.mpr hx, hfx⟩
    rw [h1] at h3
    cases h3
  · rw [List.any_eq_true] at h1
    obtain ⟨x, hx, hfx⟩ := h1
    have h3 := List.any_eq_true.mpr ⟨x, h.mem_iff.mp hx, hfx⟩
    rw [h2] at h3
    cases h3

/-- Claim C1 counterexample: the configured pattern `"."` matches the file
`proj/a.py` under the claim's matching definition — its `strip("*/")` is
`"."`, a substring of the full path string — yet the scan's Inventory
contains the file: `Path.match(".")` raises `ValueError: empty pattern`,
`_should_exclude` catches it and returns `False`.  The same pattern also
breaks order-independence: placed after `"*.py"` the file is excluded,
placed before it the exception aborts the loop first and the file is
kept. -/
theorem exclusion_cex :
    strInStr (pyStrip ".".data) (joinPath ["proj", "a.py"]).data = true ∧
    shouldExclude ["."] ["proj", "a.py"] ["a.py"] = false ∧
    scanFiles ["."] 100 ["proj"] (fun s => if s = "proj/a.py" then some ⟨0, 5⟩ else none)
        [["a.py"]] = [⟨["proj", "a.py"], 5, ".py"⟩] ∧
    shouldExclude ["*.py", "."] ["proj", "a.py"] ["a.py"] = true ∧
    shouldExclude [".", "*.py"] ["proj", "a.py"] ["a.py"] = false := by decide

/-- Claim C1 as amended: restricted to pattern lists whose every pattern is
well formed for `Path.match` (rooted or parsing to at least one component —
ruling out patterns such as `"."` on which `match` raises), any match of
the per-pattern test (glob on the full path, glob on the root-relative
path, or the `strip("*/")` substring fallback) keeps the file out of the
Inventory, and the exclusion verdict is invariant under every permutation
of the pattern list. -/
theorem exclusion_sound (patterns : List String) (maxSize : Nat) (root : List String)
    (stat : String → Option Stat) (entries : List (List String)) (rel : List String)
    (hwf : ∀ p ∈ patterns, patternOk p = true)
    (hm : (patterns.any fun p => checkB (root ++ rel) rel p) = true) :
    (∀ fi ∈ scanFiles patterns maxSize root stat entries, fi.path ≠ root ++ rel) ∧
    ∀ patterns2 : List String, patterns.Perm patterns2 →
      ∀ full r2 : List String,
        shouldExclude patterns full r2 = shouldExclude patterns2 full r2 := by
  constructor
  · intro fi hfi hpath
    obtain ⟨rel2, _, hp2, hex, _⟩ := scanFiles_mem patterns maxSize root stat entries fi hfi
    rw [hp2] at hpath
    have hrel : rel2 = rel := by
      have := congrArg (List.drop root.length) hpath
      simpa using this
    subst hrel
    rw [shouldExclude_eq_any _ _ patterns hwf, hm] at hex
    cases hex
  · intro p2 hperm full r2
    rw [shouldExclude_eq_any full r2 patterns hwf,
        shouldExclude_eq_any full r2 p2 fun q hq => hwf q (hperm.mem_iff.mpr hq)]
    exact perm_any _ hperm

/-- Witness for `exclusion_sound`: with the single well-formed pattern
`node_modules`, a scan over `node_modules/foo.js` and `a.py` emits only the
latter, whose path differs from the matched one. -/
theorem exclusion_sound_w :
    FileInfo.path ⟨["proj", "a.py"], 5, ".py"⟩ ≠ ["proj", "node_modules", "foo.js"] :=
  (exclusion_sound ["node_modules"] 100 ["proj"]
      (fun s => if s = "proj/a.py" then some ⟨0, 5⟩ else
        if s = "proj/node_modules/foo.js" then some ⟨0, 7⟩ else none)
      [["node_modules", "foo.js"], ["a.py"]] ["node_modules", "foo.js"]
      (by decide) (by decide)).1
    ⟨["proj", "a.py"], 5, ".py"⟩ (by decide)

end ScannerV3
